import Mathlib

/-!
Verification of the source-patch engine implemented by the repository's four
Python scripts (`fix_compilation.py`, `fix_orchestrator.py`, `fix_final_errors.py`,
`fix_logargs.py`).  File content is modelled as a list of characters; Python's
`str.replace` and `re.sub` are modelled by executable functions below, and each
script's module-level sequence of substitutions is translated substitution by
substitution.
-/

namespace SlothPatch

/-- File content: a string modelled as its list of characters. -/
abbrev Content := List Char

/-- Characters of a Lean string literal, used to write the scripts' string
constants. -/
def str (s : String) : Content := s.data

/-- Boolean prefix test on character lists (the test Python's `str.replace`
and `startswith` perform at each scan position). -/
def isPref : Content → Content → Bool
  | [], _ => true
  | _ :: _, [] => false
  | x :: xs, y :: ys => if x = y then isPref xs ys else false

/-- Index of the leftmost occurrence of `p` as a contiguous substring of `c`
(Python's `str.find`), `none` when absent. -/
def firstOccIdx? (p : Content) : Content → Option Nat
  | [] => if p = [] then some 0 else none
  | x :: rest =>
    if isPref p (x :: rest) then some 0
    else (firstOccIdx? p rest).map (· + 1)

/-- Substring containment (Python's `in` operator on strings). -/
def occursB (p c : Content) : Bool := (firstOccIdx? p c).isSome

/-- Worker for `replaceAll`; the fuel argument only bounds the recursion and
is set to the content length, which every step strictly decreases. -/
def replaceAllGo (p r : Content) : Nat → Content → Content
  | 0, s => s
  | _ + 1, [] => []
  | fuel + 1, x :: rest =>
    if isPref p (x :: rest) = true ∧ p ≠ [] then
      r ++ replaceAllGo p r fuel ((x :: rest).drop p.length)
    else
      x :: replaceAllGo p r fuel rest

/-- Python's `str.replace(p, r)`: replace every non-overlapping occurrence of
`p`, scanning left to right.  All patterns appearing in the scripts are
nonempty, which the `p ≠ []` guard records. -/
def replaceAll (p r c : Content) : Content := replaceAllGo p r c.length c

/-- Split content into its lines, each keeping its trailing newline
(Python's `readlines`). -/
def splitLinesAux : Content → Content → List Content
  | [], acc => if acc = [] then [] else [acc.reverse]
  | x :: rest, acc =>
    if x = '\n' then (acc.reverse ++ ['\n']) :: splitLinesAux rest []
    else splitLinesAux rest (x :: acc)

/-- Python `f.readlines()` on the given content. -/
def splitLines (c : Content) : List Content := splitLinesAux c []

/-- Python `f.writelines(lines)`: the concatenation of the lines. -/
def joinLines (ls : List Content) : Content := ls.foldr (fun l acc => l ++ acc) []

/-- The scan loop of `fix_checker` (fix_compilation.py lines 13-17), for a
window starting at index `i` with `n` indices remaining: find the first line
in the window that exists and contains `pat`, prefix it with `//`, and stop
(the Python `break`). -/
def commentLoop (pat : Content) (lines : List Content) : Nat → Nat → List Content
  | _, 0 => lines
  | i, n + 1 =>
    if i < lines.length ∧ occursB pat (lines.getD i []) = true then
      lines.set i (str "//" ++ lines.getD i [])
    else
      commentLoop pat lines (i + 1) n

/-- Index of the first line in the window `[i, i+n)` that exists and contains
`pat` (the line `fix_checker`'s loop comments out), if any. -/
def firstWinIdx? (pat : Content) (lines : List Content) : Nat → Nat → Option Nat
  | _, 0 => none
  | i, n + 1 =>
    if i < lines.length ∧ occursB pat (lines.getD i []) = true then some i
    else firstWinIdx? pat lines (i + 1) n

/-- Transform of `fix_checker` on the lines of `checker.go`: scan the line
window `range(370, 385)` and comment out the first line containing
`totalCount`. -/
def fixCheckerLines (lines : List Content) : List Content :=
  commentLoop (str "totalCount") lines 370 15

/-- File-level transform of `fix_checker`: read lines, comment, write lines. -/
def fixCheckerFile (c : Content) : Content := joinLines (fixCheckerLines (splitLines c))

/-- Quantifier on a character class, as used by the scripts' regexes
(`x`, `x?`, `x*`, `x+`). -/
inductive Quant where
  | one
  | opt
  | star
  | plus

/-- One element of a regex, covering exactly the constructs the scripts use:
literal runs, quantified character classes (`\w+`, `\s*`, `[^,]+`, `[^)]+`,
`[^}]*`, `,?`) and numbered capturing groups. -/
inductive Item where
  | lit (s : Content)
  | cls (p : Char → Bool) (q : Quant)
  | grp (n : Nat) (items : List Item)

/-- Captured groups of a match: group number paired with matched text. -/
abbrev Caps := List (Nat × Content)

/-- Backtracking matcher for a sequence of regex items against a prefix of
`s`, with Python's greedy, leftmost-alternative-first semantics: a quantified
class first tries to consume a character and only on failure falls back to
stopping.  The continuation `k` receives the remaining suffix and the captures;
the fuel bounds the recursion depth and is chosen large enough that it is
never exhausted on the lengths involved. -/
def mItems {α : Type} : Nat → List Item → Content → (Content → Caps → Option α) → Caps → Option α
  | 0, _, _, _, _ => none
  | _ + 1, [], s, k, caps => k s caps
  | fuel + 1, Item.lit l :: rest, s, k, caps =>
    if isPref l s then mItems fuel rest (s.drop l.length) k caps else none
  | fuel + 1, Item.cls p q :: rest, s, k, caps =>
    match q with
    | Quant.one =>
      match s with
      | [] => none
      | x :: s' => if p x then mItems fuel rest s' k caps else none
    | Quant.opt =>
      (match s with
        | [] => none
        | x :: s' => if p x then mItems fuel rest s' k caps else none) <|>
      mItems fuel rest s k caps
    | Quant.star =>
      (match s with
        | [] => none
        | x :: s' => if p x then mItems fuel (Item.cls p Quant.star :: rest) s' k caps else none) <|>
      mItems fuel rest s k caps
    | Quant.plus =>
      match s with
      | [] => none
      | x :: s' => if p x then mItems fuel (Item.cls p Quant.star :: rest) s' k caps else none
  | fuel + 1, Item.grp n g :: rest, s, k, caps =>
    mItems fuel g s
      (fun s' caps' => mItems fuel rest s' k ((n, s.take (s.length - s'.length)) :: caps'))
      caps

/-- Fuel that covers the maximal matcher recursion depth for the scripts'
patterns (one step per consumed character or traversed item). -/
def fuelFor (s : Content) : Nat := s.length + 300

/-- Length of the match of `items` at the start of `s` together with its
captures, `none` when the pattern does not match here. -/
def matchLen? (items : List Item) (s : Content) : Option (Nat × Caps) :=
  mItems (fuelFor s) items s (fun s' caps => some (s.length - s'.length, caps)) []

/-- Whether the pattern matches at some position of `s` (Python `re.search`
succeeding). -/
def rxOccursB (items : List Item) : Content → Bool
  | [] => (matchLen? items []).isSome
  | x :: rest => (matchLen? items (x :: rest)).isSome || rxOccursB items rest

/-- A piece of a replacement template: literal text or a backreference. -/
inductive Piece where
  | txt (s : Content)
  | grp (n : Nat)

/-- Captured text of group `n` (empty if the group is absent). -/
def lookupCap (caps : Caps) (n : Nat) : Content :=
  match caps with
  | [] => []
  | (m, c) :: rest => if m = n then c else lookupCap rest n

/-- Render a replacement template against the captures of a match. -/
def renderTmpl (pieces : List Piece) (caps : Caps) : Content :=
  pieces.foldr
    (fun p acc =>
      (match p with
        | Piece.txt s => s
        | Piece.grp n => lookupCap caps n) ++ acc)
    []

/-- Worker for `rsub`: at each position try the pattern; on a (non-empty)
match emit the rendered replacement and resume after the match, otherwise copy
one character and advance.  The fuel is set to the content length, which every
step strictly decreases. -/
def rsubGo (items : List Item) (pieces : List Piece) : Nat → Content → Content
  | 0, s => s
  | fuel + 1, s =>
    match s with
    | [] => []
    | x :: rest =>
      match matchLen? items s with
      | some (L, caps) =>
        if 0 < L then renderTmpl pieces caps ++ rsubGo items pieces fuel (s.drop L)
        else x :: rsubGo items pieces fuel rest
      | none => x :: rsubGo items pieces fuel rest

/-- Python's `re.sub(pattern, repl, content)` for the scripts' patterns:
replace every non-overlapping match, scanning left to right. -/
def rsub (items : List Item) (pieces : List Piece) (s : Content) : Content :=
  rsubGo items pieces (s.length + 1) s

/-- Python's `\w` character class (ASCII range, as in the Go sources). -/
def isWordC (c : Char) : Bool := c.isAlpha || c.isDigit || c = '_'

/-- Python's `\s` character class (ASCII range). -/
def isSpaceC (c : Char) : Bool :=
  c = ' ' || c = '\t' || c = '\n' || c = '\r' || c = '\x0b' || c = '\x0c'

/-- Negated single-character class `[^d]`. -/
def notC (d c : Char) : Bool := !(c == d)

/-- fix_logargs.py pattern 1 (line 16), a regex with two groups: a logging
call prefix and a `pulumi.Sprintf(...)` whose argument class is `[^)]+`. -/
def lgPat1 : List Item :=
  [Item.grp 1 [Item.lit (str "Log."), Item.cls isWordC Quant.plus, Item.lit (str "("),
    Item.cls (notC ',') Quant.plus, Item.lit (str ","), Item.cls isSpaceC Quant.star],
   Item.lit (str "&pulumi.LogArgs\x7b"), Item.cls isSpaceC Quant.star,
   Item.lit (str "Message:"), Item.cls isSpaceC Quant.star,
   Item.grp 2 [Item.lit (str "pulumi.Sprintf("), Item.cls (notC ')') Quant.plus,
     Item.lit (str ")")],
   Item.cls isSpaceC Quant.star, Item.lit (str "\x7d")]

/-- fix_logargs.py replacement for pattern 1 (line 17): `\1nil`. -/
def lgRep1 : List Piece := [Piece.grp 1, Piece.txt (str "nil")]

/-- fix_logargs.py pattern 2 (line 21), with three groups. -/
def lgPat2 : List Item :=
  [Item.grp 1 [Item.lit (str "ctx.Log."), Item.cls isWordC Quant.plus],
   Item.lit (str "("),
   Item.grp 2 [Item.cls (notC ',') Quant.plus],
   Item.lit (str ","), Item.cls isSpaceC Quant.star,
   Item.lit (str "&pulumi.LogArgs\x7b"),
   Item.cls (notC '\x7d') Quant.star,
   Item.lit (str "Message:"), Item.cls isSpaceC Quant.star,
   Item.grp 3 [Item.lit (str "pulumi.Sprintf("), Item.cls (notC ')') Quant.plus,
     Item.lit (str ")")],
   Item.cls (notC '\x7d') Quant.star,
   Item.lit (str "\x7d)")]

/-- fix_logargs.py `replace_message` callback (lines 22-27): rebuilds
`{method}({msg}, nil)` from groups 1 and 2. -/
def lgRep2 : List Piece :=
  [Piece.grp 1, Piece.txt (str "("), Piece.grp 2, Piece.txt (str ", nil)")]

/-- Content transform of `fix_logargs` (fix_logargs.py lines 8-29): the two
`re.sub` passes in order. -/
def fixLogargsContent (c : Content) : Content :=
  rsub lgPat2 lgRep2 (rsub lgPat1 lgRep1 c)

/-- `fix_logargs(filepath)` (lines 31-37): resulting file content paired with
whether a write was performed / `True` returned — the file is rewritten
exactly when the substitutions changed the content. -/
def fixLogargsRun (c : Content) : Content × Bool :=
  let c2 := fixLogargsContent c
  if c2 ≠ c then (c2, true) else (c, false)

/-- fix_compilation.py `fix_checker` write-back (lines 19-21): the lines are
written unconditionally, whether or not the loop changed anything; the flag
records that a write is always performed. -/
def fixCheckerRun (lines : List Content) : List Content × Bool :=
  (fixCheckerLines lines, true)

/-- fix_compilation.py lines 31-34: rke.go replace. -/
def fixRke (c : Content) : Content :=
  replaceAll (str "pulumi.Map(nodeInfo)") (str "pulumi.ToMap(nodeInfo)") c

/-- fix_compilation.py lines 46-55: dns/manager.go replaces. -/
def fixDnsManager (c : Content) : Content :=
  replaceAll (str "initialIP == nil")
    (str "initialIP == pulumi.String(\"\").ToStringOutput()")
    (replaceAll (str "pulumi.Map(dnsInfo)") (str "pulumi.ToMap(dnsInfo)") c)

/-- fix_compilation.py lines 67-70: wireguard.go replace. -/
def fixWireguard (c : Content) : Content :=
  replaceAll (str "pulumi.Map(nodeIPs)") (str "pulumi.ToMap(nodeIPs)") c

/-- fix_compilation.py lines 82-89: sshkeys.go replaces. -/
def fixSshkeys (c : Content) : Content :=
  replaceAll (str "s.privateKey == nil")
    (str "s.privateKey == pulumi.String(\"\").ToStringOutput()")
    (replaceAll (str "s.publicKey == nil")
      (str "s.publicKey == pulumi.String(\"\").ToStringOutput()") c)

/-- A single substitution as the scripts perform it: a literal
`str.replace` or a `re.sub` with a template. -/
inductive Subst where
  | lit (pat rep : Content)
  | rx (items : List Item) (pieces : List Piece)

/-- Run one substitution on content. -/
def applySubst : Subst → Content → Content
  | Subst.lit p r, c => replaceAll p r c
  | Subst.rx items pieces, c => rsub items pieces c

/-- Whether a substitution's locator matches anywhere in the content. -/
def substMatchesB : Subst → Content → Bool
  | Subst.lit p _, c => occursB p c
  | Subst.rx items _, c => rxOccursB items c

/-- A rule application in the sense of the specification, with the scripts'
changed-content detection (fix_logargs.py line 32): the new content together
with whether the rule fired. -/
def applyRule (s : Subst) (c : Content) : Content × Bool :=
  let c2 := applySubst s c
  if c2 ≠ c then (c2, true) else (c, false)

/-- fix_orchestrator.py Fix 1 (lines 12-16): `LogArgs{Message: Sprintf(...)}`
to `nil`. -/
def orchR1 : Subst :=
  Subst.rx
    [Item.lit (str "&pulumi.LogArgs\x7b"), Item.cls isSpaceC Quant.star,
     Item.lit (str "Message:"), Item.cls isSpaceC Quant.star,
     Item.lit (str "pulumi.Sprintf("), Item.cls (notC ')') Quant.plus, Item.lit (str ")"),
     Item.cls isSpaceC Quant.star, Item.lit (str "\x7d")]
    [Piece.txt (str "nil")]

/-- fix_orchestrator.py Fix 2, first replace (lines 19-22): comment out the
`configureOSFirewalls` call.  Note the replacement text contains the search
text as a substring. -/
def orchR2 : Subst :=
  Subst.lit (str "if err := o.configureOSFirewalls(); err != nil \x7b")
    (str "// OS firewall configuration moved to component\n\t// if err := o.configureOSFirewalls(); err != nil \x7b")

/-- fix_orchestrator.py Fix 2, second replace (lines 23-26). -/
def orchR3 : Subst :=
  Subst.lit (str "return fmt.Errorf(\"failed to configure OS firewalls: %w\", err)\n\t\x7d")
    (str "// \treturn fmt.Errorf(\"failed to configure OS firewalls: %w\", err)\n\t// \x7d")

/-- fix_orchestrator.py Fix 3, first `re.sub` (lines 29-33); the pattern is a
literal once the regex escapes are resolved. -/
def orchR4 : Subst :=
  Subst.rx [Item.lit (str "for _, nodeConfig := range o.config.Nodes \x7b")]
    [Piece.txt (str "for i := range o.config.Nodes \x7b\n\t\tnodeConfig := &o.config.Nodes[i]")]

/-- fix_orchestrator.py Fix 3, second `re.sub` (lines 35-39). -/
def orchR5 : Subst :=
  Subst.rx [Item.lit (str "for poolName, poolConfig := range o.config.NodePools \x7b")]
    [Piece.txt (str "for poolName := range o.config.NodePools \x7b\n\t\tpoolConfig := o.config.NodePools[poolName]")]

/-- fix_orchestrator.py Fix 4 (line 42). -/
def orchR6 : Subst := Subst.lit (str "o.config.DNS.") (str "o.config.Network.DNS.")

/-- fix_orchestrator.py Fix 5 (lines 45-48). -/
def orchR7 : Subst :=
  Subst.lit (str "if o.dnsManager != nil && ingressIP != nil \x7b")
    (str "if o.dnsManager != nil \x7b")

/-- The patch set of fix_orchestrator.py for orchestrator.go, in declared
order. -/
def orchRules : List Subst := [orchR1, orchR2, orchR3, orchR4, orchR5, orchR6, orchR7]

/-- Content transform of fix_orchestrator.py (lines 11-48): the module-level
sequence `content = fix(content)` threading each substitution's output into
the next. -/
def fixOrchestratorContent (c : Content) : Content :=
  let c1 := applySubst orchR1 c
  let c2 := applySubst orchR2 c1
  let c3 := applySubst orchR3 c2
  let c4 := applySubst orchR4 c3
  let c5 := applySubst orchR5 c4
  let c6 := applySubst orchR6 c5
  let c7 := applySubst orchR7 c6
  c7

/-- fix_final_errors.py Fix 1 (lines 11-14). -/
def finR1 : Subst :=
  Subst.lit (str "if o.config.Storage != nil && len(o.config.Storage.Classes) > 0")
    (str "if len(o.config.Storage.Classes) > 0")

/-- fix_final_errors.py Fix 2 (line 17). -/
def finR2 : Subst :=
  Subst.lit (str "o.config.LoadBalancers")
    (str "[]*config.LoadBalancerConfig\x7b&o.config.LoadBalancer\x7d")

/-- fix_final_errors.py Fix 3 (lines 20-24): `pulumi.Map((\w+Outputs))` to
`pulumi.ToMap(\1)`. -/
def finR3 : Subst :=
  Subst.rx
    [Item.lit (str "pulumi.Map("),
     Item.grp 1 [Item.cls isWordC Quant.plus, Item.lit (str "Outputs")],
     Item.lit (str ")")]
    [Piece.txt (str "pulumi.ToMap("), Piece.grp 1, Piece.txt (str ")")]

/-- fix_final_errors.py Fix 4 (lines 27-31): like `orchR1` with an optional
comma before the closing brace. -/
def finR4 : Subst :=
  Subst.rx
    [Item.lit (str "&pulumi.LogArgs\x7b"), Item.cls isSpaceC Quant.star,
     Item.lit (str "Message:"), Item.cls isSpaceC Quant.star,
     Item.lit (str "pulumi.Sprintf("), Item.cls (notC ')') Quant.plus, Item.lit (str ")"),
     Item.cls (fun c => c == ',') Quant.opt, Item.cls isSpaceC Quant.star,
     Item.lit (str "\x7d")]
    [Piece.txt (str "nil")]

/-- The patch set of fix_final_errors.py for orchestrator.go (lines 10-31),
in declared order. -/
def finalOrchRules : List Subst := [finR1, finR2, finR3, finR4]

/-- Content transform of fix_final_errors.py on orchestrator.go. -/
def fixFinalOrchContent (c : Content) : Content :=
  let c1 := applySubst finR1 c
  let c2 := applySubst finR2 c1
  let c3 := applySubst finR3 c2
  let c4 := applySubst finR4 c3
  c4

/-- The scripts' write-back, `open(path, "w")` followed by `f.write(content)`:
opening with mode `w` truncates the file, and a failure after `k` characters
leaves the file holding the first `k` characters of the new content.  `none`
means the write completed. -/
def writeTruncate (new : Content) : Option Nat → Content
  | none => new
  | some k => new.take k

/-- Disk content of orchestrator.go after fix_orchestrator.py's write-back
(lines 50-51), for a given failure point. -/
def fixOrchestratorDisk (orig : Content) (fail : Option Nat) : Content :=
  writeTruncate (fixOrchestratorContent orig) fail

/-- A file system, modelled as an association of paths to contents; a path
absent from the list does not exist (or is unreadable). -/
abbrev Fs := List (String × Content)

/-- Read a file: `none` models `open` raising / `os.path.exists` false. -/
def readFs : Fs → String → Option Content
  | [], _ => none
  | (q, c) :: rest, p => if q = p then some c else readFs rest p

/-- Write a file (create or overwrite). -/
def writeFs : Fs → String → Content → Fs
  | [], p, c => [(p, c)]
  | (q, d) :: rest, p, c => if q = p then (p, c) :: rest else (q, d) :: writeFs rest p c

/-- Path constants of fix_compilation.py. -/
def checkerPath : String := "/Users/chalkan3/.projects/do-droplet-create/pkg/health/checker.go"

def rkePath : String := "/Users/chalkan3/.projects/do-droplet-create/pkg/cluster/rke.go"

def dnsPath : String := "/Users/chalkan3/.projects/do-droplet-create/pkg/dns/manager.go"

def wgPath : String := "/Users/chalkan3/.projects/do-droplet-create/pkg/security/wireguard.go"

def sshPath : String := "/Users/chalkan3/.projects/do-droplet-create/pkg/security/sshkeys.go"

/-- Process one file of fix_compilation.py: read it — an unreadable or
missing file raises, aborting the whole script — transform, and write back
unconditionally. -/
def stepFs (fs : Fs) (p : String) (t : Content → Content) : Except String Fs :=
  match readFs fs p with
  | none => Except.error p
  | some c => Except.ok (writeFs fs p (t c))

/-- The module-level run of fix_compilation.py (lines 96-97): `fix_checker()`
then `fix_pulumi_map_conversions()`, each file in source order; the first
read failure propagates as an uncaught exception and ends the run. -/
def fixCompilationRun (fs : Fs) : Except String Fs := do
  let fs1 <- stepFs fs checkerPath fixCheckerFile
  let fs2 <- stepFs fs1 rkePath fixRke
  let fs3 <- stepFs fs2 dnsPath fixDnsManager
  let fs4 <- stepFs fs3 wgPath fixWireguard
  stepFs fs4 sshPath fixSshkeys

/-- The seven files fix_logargs.py lists (lines 40-48), relative to the
project root. -/
def goFiles : List String :=
  ["pkg/dns/manager.go", "pkg/health/checker.go", "pkg/health/validator.go",
   "pkg/network/manager.go", "pkg/network/vpn_connectivity.go",
   "pkg/security/os_firewall.go", "pkg/security/sshkeys.go"]

/-- The loop of fix_logargs.py (lines 50-56): paths that do not exist are
skipped silently; existing files are transformed and written back only when
changed, counting the changed ones. -/
def runLogargs : Fs → List String → Fs × Nat
  | fs, [] => (fs, 0)
  | fs, p :: ps =>
    match readFs fs p with
    | none => runLogargs fs ps
    | some c =>
      let c2 := fixLogargsContent c
      if c2 ≠ c then
        let r := runLogargs (writeFs fs p c2) ps
        (r.1, r.2 + 1)
      else runLogargs fs ps

/-- Whether fix_logargs would rewrite the file at `p` in file system `fs`:
the path exists and the substitutions change its content. -/
def changesAt (fs : Fs) (p : String) : Bool :=
  match readFs fs p with
  | none => false
  | some c => decide (fixLogargsContent c ≠ c)

/-- Concrete content for exercising the comment-out rule of
fix_orchestrator.py: exactly the text its pattern searches for. -/
def c1content : Content := str "if err := o.configureOSFirewalls(); err != nil \x7b"

/-- The literal pattern of the rke.go rule of fix_compilation.py. -/
def rkePat : Content := str "pulumi.Map(nodeInfo)"

/-- The replacement of the rke.go rule of fix_compilation.py. -/
def rkeRep : Content := str "pulumi.ToMap(nodeInfo)"

/-- Concrete orchestrator.go content that fix_orchestrator.py changes
(it contains `o.config.DNS.`). -/
def c4content : Content := str "x o.config.DNS.y"

/-- A file system holding only rke.go, so that fix_compilation.py's first
read (checker.go) fails. -/
def c5fs : Fs := [(rkePath, str "pulumi.Map(nodeInfo)")]

/-- A checker.go lines list whose only `totalCount` line sits at index 370,
inside the scanned window. -/
def c6lines : List Content := List.replicate 370 (str "x") ++ [str "a totalCount b"]

/-- Content with a `&pulumi.LogArgs{Message: pulumi.Sprintf(...)}` construct
whose Sprintf arguments contain a nested call `f(x)` and hence a `)`. -/
def c10content : Content :=
  str "Log.Info(\"a\", &pulumi.LogArgs\x7bMessage: pulumi.Sprintf(\"b %s\", f(x))\x7d)"

/-- The same LogArgs construct without the logging-call prefix, for
fix_final_errors.py's Fix 4. -/
def c10bare : Content :=
  str "&pulumi.LogArgs\x7bMessage: pulumi.Sprintf(\"b %s\", f(x))\x7d"

end SlothPatch

namespace SlothPatch

theorem isPref_eq_false_of_cons {p : Content} {x : Char} {xs : Content}
    (h : occursB p (x :: xs) = false) : isPref p (x :: xs) = false := by
  by_contra hne
  have htrue : isPref p (x :: xs) = true := by
    cases hp : isPref p (x :: xs) with
    | false => exact absurd hp hne
    | true => rfl
  simp [occursB, firstOccIdx?, htrue] at h

theorem occursB_tail {p : Content} {x : Char} {xs : Content}
    (h : occursB p (x :: xs) = false) : occursB p xs = false := by
  have hpref := isPref_eq_false_of_cons h
  simp [occursB, firstOccIdx?, hpref] at h
  simp [occursB, h]

/-- When the pattern does not occur in the content, `replaceAllGo` copies the
content unchanged, whatever the fuel. -/
theorem replaceAllGo_of_not_occurs (p r : Content) :
    ∀ (fuel : Nat) (s : Content), occursB p s = false → replaceAllGo p r fuel s = s := by
  intro fuel
  induction fuel with
  | zero => intro s _; rfl
  | succ n ih =>
    intro s hs
    cases s with
    | nil => rfl
    | cons x rest =>
      have hpref := isPref_eq_false_of_cons hs
      have htail := occursB_tail hs
      simp [replaceAllGo, hpref, ih rest htail]

/-- Python `str.replace` leaves content without any occurrence of the pattern
unchanged. -/
theorem replaceAll_of_not_occurs (p r c : Content) (h : occursB p c = false) :
    replaceAll p r c = c :=
  replaceAllGo_of_not_occurs p r c.length c h

theorem length_pos_of_ne_nil {p : Content} (h : p ≠ []) : 0 < p.length := by
  cases p with
  | nil => exact absurd rfl h
  | cons _ _ => simp

/-- `replaceAllGo` does not depend on the fuel as long as the fuel covers the
content length. -/
theorem replaceAllGo_fuel (p r : Content) :
    ∀ (fuel fuel' : Nat) (s : Content), s.length ≤ fuel → s.length ≤ fuel' →
      replaceAllGo p r fuel s = replaceAllGo p r fuel' s := by
  intro fuel
  induction fuel with
  | zero =>
    intro fuel' s hs _
    have : s = [] := by cases s with
      | nil => rfl
      | cons _ _ => simp at hs
    subst this
    cases fuel' <;> rfl
  | succ n ih =>
    intro fuel' s hs hs'
    cases s with
    | nil => cases fuel' <;> rfl
    | cons x rest =>
      cases fuel' with
      | zero => simp at hs'
      | succ m =>
        by_cases hc : isPref p (x :: rest) = true ∧ p ≠ []
        · have hplen : 0 < p.length := length_pos_of_ne_nil hc.2
          have hdl : ((x :: rest).drop p.length).length ≤ n := by
            simp only [List.length_drop, List.length_cons]
            simp only [List.length_cons] at hs
            omega
          have hdl' : ((x :: rest).drop p.length).length ≤ m := by
            simp only [List.length_drop, List.length_cons]
            simp only [List.length_cons] at hs'
            omega
          simp [replaceAllGo, hc, ih m _ hdl hdl']
        · have hrl : rest.length ≤ n := by
            simp only [List.length_cons] at hs; omega
          have hrl' : rest.length ≤ m := by
            simp only [List.length_cons] at hs'; omega
          simp only [replaceAllGo, if_neg hc]
          rw [ih m rest hrl hrl']

theorem firstOccIdx?_nil_of_ne {p : Content} (hp : p ≠ []) :
    firstOccIdx? p [] = none := by
  simp [firstOccIdx?, hp]

/-- Splice characterization of `str.replace`: the content before the leftmost
occurrence is copied unchanged, the occurrence itself is replaced, and the
scan restarts after it (replace-all semantics). -/
theorem replaceAllGo_firstOcc (p r : Content) (hp : p ≠ []) :
    ∀ (fuel : Nat) (s : Content) (i : Nat), s.length ≤ fuel →
      firstOccIdx? p s = some i →
      replaceAllGo p r fuel s =
        s.take i ++ r ++ replaceAll p r (s.drop (i + p.length)) := by
  intro fuel
  induction fuel with
  | zero =>
    intro s i hs hocc
    have : s = [] := by cases s with
      | nil => rfl
      | cons _ _ => simp at hs
    subst this
    rw [firstOccIdx?_nil_of_ne hp] at hocc
    exact absurd hocc (by simp)
  | succ n ih =>
    intro s i hs hocc
    cases s with
    | nil =>
      rw [firstOccIdx?_nil_of_ne hp] at hocc
      exact absurd hocc (by simp)
    | cons x rest =>
      by_cases hpref : isPref p (x :: rest) = true
      · have hi : i = 0 := by
          simp [firstOccIdx?, hpref] at hocc
          omega
        subst hi
        have hplen : 0 < p.length := length_pos_of_ne_nil hp
        have hdl : ((x :: rest).drop p.length).length ≤ n := by
          simp only [List.length_drop, List.length_cons]
          simp only [List.length_cons] at hs
          omega
        have hcpos : isPref p (x :: rest) = true ∧ p ≠ [] := ⟨hpref, hp⟩
        simp only [replaceAllGo, if_pos hcpos, List.take_zero, Nat.zero_add,
          List.nil_append, replaceAll]
        exact congrArg (fun t => r ++ t) (replaceAllGo_fuel p r n _ _ hdl (Nat.le_refl _))
      · have hrec : (firstOccIdx? p rest).map (· + 1) = some i := by
          simpa [firstOccIdx?, hpref] using hocc
        cases hj : firstOccIdx? p rest with
        | none => rw [hj] at hrec; simp at hrec
        | some j =>
          rw [hj] at hrec
          simp only [Option.map_some'] at hrec
          have hij : j + 1 = i := by injection hrec
          subst hij
          have hcond : ¬ (isPref p (x :: rest) = true ∧ p ≠ []) := by
            intro hcontra
            exact hpref hcontra.1
          have hrl : rest.length ≤ n := by
            simp only [List.length_cons] at hs; omega
          have hrec2 := ih rest j hrl hj
          simp only [replaceAllGo, if_neg hcond, hrec2]
          have hdrop : (x :: rest).drop (j + 1 + p.length) = rest.drop (j + p.length) := by
            have harith : j + 1 + p.length = (j + p.length) + 1 := by omega
            rw [harith, List.drop_succ_cons]
          rw [hdrop, List.take_succ_cons]
          simp

/-- Splice characterization of `str.replace` at the leftmost occurrence. -/
theorem replaceAll_firstOcc (p r c : Content) (hp : p ≠ []) (i : Nat)
    (hocc : firstOccIdx? p c = some i) :
    replaceAll p r c = c.take i ++ r ++ replaceAll p r (c.drop (i + p.length)) :=
  replaceAllGo_firstOcc p r hp c.length c i (Nat.le_refl _) hocc

theorem commentLoop_eq_match (pat : Content) (lines : List Content) :
    ∀ (n i : Nat),
      commentLoop pat lines i n =
        (match firstWinIdx? pat lines i n with
          | none => lines
          | some j => lines.set j (str "//" ++ lines.getD j [])) := by
  intro n
  induction n with
  | zero => intro i; rfl
  | succ m ih =>
    intro i
    by_cases hc : i < lines.length ∧ occursB pat (lines.getD i []) = true
    · simp only [commentLoop, firstWinIdx?, if_pos hc]
    · simp only [commentLoop, firstWinIdx?, if_neg hc]
      exact ih (i + 1)

theorem firstWinIdx?_bounds (pat : Content) (lines : List Content) :
    ∀ (n i j : Nat), firstWinIdx? pat lines i n = some j →
      i ≤ j ∧ j < i + n ∧ j < lines.length ∧ occursB pat (lines.getD j []) = true := by
  intro n
  induction n with
  | zero => intro i j h; simp [firstWinIdx?] at h
  | succ m ih =>
    intro i j h
    by_cases hc : i < lines.length ∧ occursB pat (lines.getD i []) = true
    · simp only [firstWinIdx?, if_pos hc] at h
      have hji : j = i := by injection h with h'; omega
      subst hji
      exact ⟨Nat.le_refl _, by omega, hc.1, hc.2⟩
    · simp only [firstWinIdx?, if_neg hc] at h
      have := ih (i + 1) j h
      exact ⟨by omega, by omega, this.2.2.1, this.2.2.2⟩

theorem getD_set_ne {α : Type} : ∀ (l : List α) (i j : Nat) (v d : α), i ≠ j →
    (l.set i v).getD j d = l.getD j d := by
  intro l
  induction l with
  | nil => intro i j v d _; cases i <;> rfl
  | cons x xs ih =>
    intro i j v d hij
    cases i with
    | zero =>
      cases j with
      | zero => exact absurd rfl hij
      | succ k => rfl
    | succ i' =>
      cases j with
      | zero => rfl
      | succ k =>
        have : i' ≠ k := fun h => hij (by rw [h])
        simp only [List.set_cons_succ, List.getD_cons_succ]
        exact ih i' k v d this

theorem rxOccursB_head {items : List Item} {x : Char} {rest : Content}
    (h : rxOccursB items (x :: rest) = false) :
    matchLen? items (x :: rest) = none := by
  simp only [rxOccursB, Bool.or_eq_false_iff] at h
  cases hm : matchLen? items (x :: rest) with
  | none => rfl
  | some v => rw [hm] at h; simp at h

theorem rxOccursB_tail {items : List Item} {x : Char} {rest : Content}
    (h : rxOccursB items (x :: rest) = false) : rxOccursB items rest = false := by
  simp only [rxOccursB, Bool.or_eq_false_iff] at h
  exact h.2

theorem rsubGo_of_not_occurs (items : List Item) (pieces : List Piece) :
    ∀ (fuel : Nat) (s : Content), rxOccursB items s = false →
      rsubGo items pieces fuel s = s := by
  intro fuel
  induction fuel with
  | zero => intro s _; rfl
  | succ n ih =>
    intro s hs
    cases s with
    | nil => rfl
    | cons x rest =>
      have hhead := rxOccursB_head hs
      have htail := rxOccursB_tail hs
      simp only [rsubGo, hhead]
      rw [ih rest htail]

/-- `re.sub` leaves content in which the pattern never matches unchanged. -/
theorem rsub_of_not_occurs (items : List Item) (pieces : List Piece) (c : Content)
    (h : rxOccursB items c = false) : rsub items pieces c = c :=
  rsubGo_of_not_occurs items pieces (c.length + 1) c h

theorem readFs_writeFs_ne (q p : String) (hqp : q ≠ p) :
    ∀ (fs : Fs) (c : Content), readFs (writeFs fs p c) q = readFs fs q := by
  intro fs
  induction fs with
  | nil =>
    intro c
    simp only [writeFs, readFs]
    rw [if_neg (fun h => hqp h.symm)]
  | cons e rest ih =>
    obtain ⟨q0, c0⟩ := e
    intro c
    simp only [writeFs]
    by_cases he : q0 = p
    · rw [if_pos he]
      subst he
      simp only [readFs]
      rw [if_neg (fun h => hqp h.symm), if_neg (fun h => hqp h.symm)]
    · rw [if_neg he]
      simp only [readFs]
      by_cases hq0q : q0 = q
      · rw [if_pos hq0q, if_pos hq0q]
      · rw [if_neg hq0q, if_neg hq0q]
        exact ih c

theorem changesAt_writeFs_ne (fs : Fs) (p q : String) (c : Content) (hqp : q ≠ p) :
    changesAt (writeFs fs p c) q = changesAt fs q := by
  simp only [changesAt, readFs_writeFs_ne q p hqp]

theorem filterLength_congr {α : Type} :
    ∀ (l : List α) (f g : α → Bool), (∀ a, a ∈ l → f a = g a) → l.filter f = l.filter g := by
  intro l
  induction l with
  | nil => intro f g _; rfl
  | cons x xs ih =>
    intro f g h
    have hx : f x = g x := h x (List.mem_cons_self x xs)
    have hxs := ih f g (fun a ha => h a (List.mem_cons_of_mem x ha))
    simp only [List.filter, hx, hxs]

/-- `runLogargs` touches no path outside its list. -/
theorem runLogargs_not_mem :
    ∀ (ps : List String) (fs : Fs) (q : String), q ∉ ps →
      readFs (runLogargs fs ps).1 q = readFs fs q := by
  intro ps
  induction ps with
  | nil => intro fs q _; rfl
  | cons p rest ih =>
    intro fs q hq
    have hqp : q ≠ p := fun h => hq (h ▸ List.mem_cons_self p rest)
    have hqrest : q ∉ rest := fun h => hq (List.mem_cons_of_mem p h)
    cases hr : readFs fs p with
    | none =>
      simp only [runLogargs, hr]
      exact ih fs q hqrest
    | some c =>
      simp only [runLogargs, hr]
      by_cases hch : fixLogargsContent c ≠ c
      · simp only [if_pos hch]
        rw [ih (writeFs fs p (fixLogargsContent c)) q hqrest]
        exact readFs_writeFs_ne q p hqp fs (fixLogargsContent c)
      · simp only [if_neg hch]
        exact ih fs q hqrest

/-- Full specification of the fix_logargs loop on a duplicate-free path
list: the reported count is the number of listed paths that exist and whose
content the substitutions change, and any path the substitutions would not
change (or that does not exist) is untouched on disk. -/
theorem runLogargs_spec :
    ∀ (ps : List String) (fs : Fs), ps.Nodup →
      (runLogargs fs ps).2 = (ps.filter (changesAt fs)).length ∧
      (∀ q : String, changesAt fs q = false →
        readFs (runLogargs fs ps).1 q = readFs fs q) := by
  intro ps
  induction ps with
  | nil => intro fs _; exact ⟨rfl, fun q _ => rfl⟩
  | cons p rest ih =>
    intro fs hnd
    rw [List.nodup_cons] at hnd
    obtain ⟨hp, hrest⟩ := hnd
    cases hr : readFs fs p with
    | none =>
      have hcp : changesAt fs p = false := by simp [changesAt, hr]
      have h1 := ih fs hrest
      constructor
      · simp only [runLogargs, hr]
        rw [h1.1, List.filter_cons_of_neg (by simp [hcp])]
      · intro q hq
        simp only [runLogargs, hr]
        exact h1.2 q hq
    | some c =>
      by_cases hch : fixLogargsContent c ≠ c
      · have hcp : changesAt fs p = true := by
          simp only [changesAt, hr]
          exact decide_eq_true hch
        have hfilter : rest.filter (changesAt (writeFs fs p (fixLogargsContent c))) =
            rest.filter (changesAt fs) := by
          apply filterLength_congr
          intro a ha
          have hap : a ≠ p := fun h => hp (h ▸ ha)
          exact changesAt_writeFs_ne fs p a (fixLogargsContent c) hap
        have h1 := ih (writeFs fs p (fixLogargsContent c)) hrest
        constructor
        · simp only [runLogargs, hr, if_pos hch]
          rw [h1.1, hfilter, List.filter_cons_of_pos (by simp [hcp]), List.length_cons]
        · intro q hq
          have hqp : q ≠ p := by
            intro h
            subst h
            rw [hcp] at hq
            exact absurd hq (by decide)
          simp only [runLogargs, hr, if_pos hch]
          have hq2 : changesAt (writeFs fs p (fixLogargsContent c)) q = false := by
            rw [changesAt_writeFs_ne fs p q _ hqp]
            exact hq
          rw [h1.2 q hq2]
          exact readFs_writeFs_ne q p hqp fs _
      · have hceq : fixLogargsContent c = c := not_not.mp hch
        have hcp : changesAt fs p = false := by
          simp [changesAt, hr, hceq]
        have h1 := ih fs hrest
        constructor
        · simp only [runLogargs, hr, if_neg hch]
          rw [h1.1, List.filter_cons_of_neg (by simp [hcp])]
        · intro q hq
          simp only [runLogargs, hr, if_neg hch]
          exact h1.2 q hq

example : SlothPatch.replaceAll (SlothPatch.str "ab") (SlothPatch.str "z")
    (SlothPatch.str "xxabyyab") = SlothPatch.str "xxzyyz" := by decide

example : SlothPatch.splitLines (SlothPatch.str "a\nbc\nd") =
    [SlothPatch.str "a\n", SlothPatch.str "bc\n", SlothPatch.str "d"] := by decide

example : SlothPatch.fixCheckerLines [SlothPatch.str "totalCount"] =
    [SlothPatch.str "totalCount"] := by decide

example : SlothPatch.firstOccIdx? (SlothPatch.str "ab") (SlothPatch.str "xxabyy") = some 2 := by
  decide

example : SlothPatch.applySubst SlothPatch.finR3
    (SlothPatch.str "x := pulumi.Map(nodeOutputs)") =
    SlothPatch.str "x := pulumi.ToMap(nodeOutputs)" := by decide

example : SlothPatch.applySubst SlothPatch.orchR1
    (SlothPatch.str "a &pulumi.LogArgs\x7bMessage: pulumi.Sprintf(\"x %d\", n)\x7d b") =
    SlothPatch.str "a nil b" := by decide

example : SlothPatch.fixLogargsContent
    (SlothPatch.str "Log.Info(\"a\", &pulumi.LogArgs\x7bMessage: pulumi.Sprintf(\"b\")\x7d)") =
    SlothPatch.str "Log.Info(\"a\", nil)" := by decide

example : SlothPatch.fixLogargsContent
    (SlothPatch.str "Log.Info(\"a\", &pulumi.LogArgs\x7bMessage: pulumi.Sprintf(\"b %s\", f(x))\x7d)") =
    SlothPatch.str "Log.Info(\"a\", &pulumi.LogArgs\x7bMessage: pulumi.Sprintf(\"b %s\", f(x))\x7d)" := by
  decide

/-- Claim C1, counterexample: the comment-out rule of fix_orchestrator.py
(Fix 2, first replace) is not idempotent — its replacement contains its own
search text, so a second application re-comments the already-commented line
and `r.apply(r.apply(c).content).content` differs from `r.apply(c).content`. -/
theorem claim_c1_cex :
    (applyRule orchR2 (applyRule orchR2 c1content).1).1 ≠ (applyRule orchR2 c1content).1 := by
  decide

/-- Claim C1, amended: applying a rule twice yields the same content as
applying it once exactly when, after the first application, the rule's
pattern no longer matches: re-application is then a no-op; the unconditional
form fails for the comment-out rules, whose replacement contains the search
text. -/
theorem claim_c1_amended (s : Subst) (c : Content)
    (h : substMatchesB s (applySubst s c) = false) :
    applySubst s (applySubst s c) = applySubst s c := by
  cases s with
  | lit p r => exact replaceAll_of_not_occurs p r _ h
  | rx items pieces => exact rsub_of_not_occurs items pieces _ h

/-- Witness for `claim_c1_amended` at the rke.go rule on concrete content. -/
theorem claim_c1_amended_witness :
    applySubst (Subst.lit rkePat rkeRep)
        (applySubst (Subst.lit rkePat rkeRep) (str "x := pulumi.Map(nodeInfo)")) =
      applySubst (Subst.lit rkePat rkeRep) (str "x := pulumi.Map(nodeInfo)") :=
  claim_c1_amended (Subst.lit rkePat rkeRep) (str "x := pulumi.Map(nodeInfo)") (by decide)

/-- Claim C2, counterexample: with two adjacent occurrences of the rke.go
rule's pattern, the result is not the splice at the first occurrence only —
`str.replace` also rewrites the second occurrence, changing bytes outside the
first matched span. -/
theorem claim_c2_cex :
    firstOccIdx? rkePat (rkePat ++ rkePat) = some 0 ∧
    fixRke (rkePat ++ rkePat) ≠
      (rkePat ++ rkePat).take 0 ++ rkeRep ++
        (rkePat ++ rkePat).drop (0 + rkePat.length) := by
  decide

/-- Claim C2, amended: the rke.go rule acts on every occurrence of its
pattern (replace-all), not only the first: the content before the leftmost
occurrence is copied byte-for-byte, that occurrence is replaced, and the same
rewrite recurses on the remainder after the span. -/
theorem claim_c2_amended (c : Content) (i : Nat)
    (h : firstOccIdx? rkePat c = some i) :
    fixRke c = c.take i ++ rkeRep ++ fixRke (c.drop (i + rkePat.length)) :=
  replaceAll_firstOcc rkePat rkeRep c (by decide) i h

/-- Witness for `claim_c2_amended` on content whose first occurrence starts
at index 2. -/
theorem claim_c2_amended_witness :
    fixRke (str "a pulumi.Map(nodeInfo) b") =
      (str "a pulumi.Map(nodeInfo) b").take 2 ++ rkeRep ++
        fixRke ((str "a pulumi.Map(nodeInfo) b").drop (2 + rkePat.length)) :=
  claim_c2_amended (str "a pulumi.Map(nodeInfo) b") 2 (by decide)

/-- Claim C3, counterexample: `fix_checker` performs its write
unconditionally — on a file with no `totalCount` line in the window, the
content is unchanged yet a write is still performed. -/
theorem claim_c3_cex :
    (fixCheckerRun [str "hello"]).2 = true ∧
    fixCheckerLines [str "hello"] = [str "hello"] := by
  decide

/-- Claim C3, amended: only fix_logargs writes conditionally — it leaves the
file untouched exactly when the substitutions changed nothing, and writes new
content exactly when they changed it; the other scripts write back
unconditionally. -/
theorem claim_c3_amended (c : Content) :
    ((fixLogargsRun c).2 = false → (fixLogargsRun c).1 = c) ∧
    ((fixLogargsRun c).2 = true → (fixLogargsRun c).1 ≠ c) := by
  by_cases h : fixLogargsContent c ≠ c
  · constructor
    · intro hf
      simp only [fixLogargsRun, if_pos h] at hf
      exact absurd hf (by decide)
    · intro _
      simp only [fixLogargsRun, if_pos h]
      exact h
  · constructor
    · intro _
      simp only [fixLogargsRun, if_neg h]
    · intro ht
      simp only [fixLogargsRun, if_neg h] at ht
      exact absurd ht (by decide)

/-- Witness for `claim_c3_amended` on content fix_logargs does not change. -/
theorem claim_c3_amended_witness : (fixLogargsRun (str "hello")).1 = str "hello" :=
  (claim_c3_amended (str "hello")).1 (by decide)

/-- Claim C7: a rule whose locator does not match the content returns the
content unchanged with `applied = false`; this is not an error and the model
is total, so the run continues. -/
theorem claim_c7 (s : Subst) (c : Content) (h : substMatchesB s c = false) :
    applyRule s c = (c, false) := by
  have heq : applySubst s c = c := by
    cases s with
    | lit p r => exact replaceAll_of_not_occurs p r c h
    | rx items pieces => exact rsub_of_not_occurs items pieces c h
  simp only [applyRule, heq]
  simp

/-- Witness for `claim_c7` at the dns/manager.go rule on unrelated content. -/
theorem claim_c7_witness :
    applyRule (Subst.lit (str "pulumi.Map(dnsInfo)") (str "pulumi.ToMap(dnsInfo)"))
      (str "abc") = (str "abc", false) :=
  claim_c7 (Subst.lit (str "pulumi.Map(dnsInfo)") (str "pulumi.ToMap(dnsInfo)"))
    (str "abc") (by decide)

/-- Claim C8: both patch sets apply their substitutions strictly left-to-right
in declared order, each on the cumulative output of the previous ones — the
scripts' sequential `content = fix(content)` chains equal the left-to-right
fold of the declared rule lists over the initial content. -/
theorem claim_c8 (c : Content) :
    fixOrchestratorContent c = orchRules.foldl (fun a s => applySubst s a) c ∧
    fixFinalOrchContent c = finalOrchRules.foldl (fun a s => applySubst s a) c :=
  ⟨rfl, rfl⟩

/-- Claim C10: content containing a `&pulumi.LogArgs{Message: pulumi.Sprintf(...)}`
construct whose Sprintf arguments contain a nested call `f(x)` — and hence a
`)` — is left entirely unchanged by the LogArgs rewrites, because `[^)]+`
cannot reach past the inner `)`. -/
theorem claim_c10 :
    occursB (str "&pulumi.LogArgs\x7bMessage: pulumi.Sprintf(") c10content = true ∧
    occursB (str "f(x)") c10content = true ∧
    fixLogargsContent c10content = c10content ∧
    applySubst finR4 c10bare = c10bare := by
  decide

/-- Claim C4, counterexample: fix_orchestrator.py's write-back is a plain
truncating write, not an atomic replace — a write failure at offset 0, after
the patched content has been computed (and differs from the original), leaves
the file empty rather than byte-for-byte unchanged. -/
theorem claim_c4_cex :
    fixOrchestratorContent c4content ≠ c4content ∧
    fixOrchestratorDisk c4content (some 0) ≠ c4content := by
  decide

/-- Claim C4, amended: the write-back opens the target with mode `w`
(truncating it) and writes the new content in place, with no temporary file
or rename; a completed write stores the patched content, and a write failing
after `k` characters leaves the file holding exactly the first `k` characters
of the patched content — a prefix of the new content, not the original. -/
theorem claim_c4_amended (orig : Content) (k : Nat) :
    fixOrchestratorDisk orig none = fixOrchestratorContent orig ∧
    fixOrchestratorDisk orig (some k) = (fixOrchestratorContent orig).take k ∧
    fixOrchestratorDisk orig (some k) ++ (fixOrchestratorContent orig).drop k =
      fixOrchestratorContent orig :=
  ⟨rfl, rfl, List.take_append_drop k (fixOrchestratorContent orig)⟩

/-- Claim C5, counterexample: with checker.go unreadable but rke.go present
and patchable, fix_compilation.py's run raises on the first binding and never
reaches the remaining ones — the failure is fatal to the whole run, not only
to that binding. -/
theorem claim_c5_cex :
    fixCompilationRun c5fs = Except.error checkerPath ∧
    fixRke (str "pulumi.Map(nodeInfo)") ≠ str "pulumi.Map(nodeInfo)" := by
  constructor
  · simp only [fixCompilationRun, stepFs]
    rw [show readFs c5fs checkerPath = none from by decide]
    rfl
  · decide

/-- Claim C5, amended: only fix_logargs tolerates a missing target file — a
path that does not exist is skipped and the loop continues with the remaining
paths — while in fix_compilation.py a failing read of checker.go aborts the
entire run with the exception, leaving every remaining binding unprocessed. -/
theorem claim_c5_amended :
    (∀ (fs : Fs) (p : String) (ps : List String), readFs fs p = none →
      runLogargs fs (p :: ps) = runLogargs fs ps) ∧
    (∀ fs : Fs, readFs fs checkerPath = none →
      fixCompilationRun fs = Except.error checkerPath) := by
  constructor
  · intro fs p ps h
    simp only [runLogargs, h]
  · intro fs h
    simp only [fixCompilationRun, stepFs, h]
    trivial

/-- Witness for `claim_c5_amended` on an empty file system. -/
theorem claim_c5_amended_witness :
    runLogargs [] ["a", "b"] = runLogargs [] ["b"] ∧
    fixCompilationRun [] = Except.error checkerPath :=
  ⟨claim_c5_amended.1 [] "a" ["b"] rfl, claim_c5_amended.2 [] rfl⟩

/-- Claim C6: `fix_checker`'s window rule scans exactly the line indices
`[370, 385)`, comments out (prefixes with `//`) only the first line in that
window that exists and contains `totalCount`, leaves every other line
unchanged, and returns the lines unchanged when no window line matches. -/
theorem claim_c6 (lines : List Content) :
    (fixCheckerLines lines =
      match firstWinIdx? (str "totalCount") lines 370 15 with
      | none => lines
      | some j => lines.set j (str "//" ++ lines.getD j [])) ∧
    (∀ j : Nat, firstWinIdx? (str "totalCount") lines 370 15 = some j →
      370 ≤ j ∧ j < 385 ∧ j < lines.length ∧
      occursB (str "totalCount") (lines.getD j []) = true) ∧
    (∀ j k : Nat, firstWinIdx? (str "totalCount") lines 370 15 = some j → k ≠ j →
      (fixCheckerLines lines).getD k [] = lines.getD k []) := by
  refine ⟨commentLoop_eq_match (str "totalCount") lines 15 370, ?_, ?_⟩
  · intro j h
    have hb := firstWinIdx?_bounds (str "totalCount") lines 15 370 j h
    exact ⟨hb.1, by omega, hb.2.2.1, hb.2.2.2⟩
  · intro j k h hk
    have he := commentLoop_eq_match (str "totalCount") lines 15 370
    rw [h] at he
    simp only [fixCheckerLines, he]
    exact getD_set_ne lines j k (str "//" ++ lines.getD j []) [] (fun hh => hk hh.symm)

set_option maxRecDepth 4000 in
/-- Witness for `claim_c6`: a 371-line file whose `totalCount` line sits at
index 370 gets exactly that line commented out. -/
theorem claim_c6_witness :
    fixCheckerLines c6lines = c6lines.set 370 (str "//" ++ c6lines.getD 370 []) := by
  have h := (claim_c6 c6lines).1
  rw [show firstWinIdx? (str "totalCount") c6lines 370 15 = some 370 from by decide] at h
  exact h

/-- Claim C9: fix_logargs rewrites a file and returns `True` exactly when its
substitutions change the content; over a duplicate-free path list the final
count equals the number of listed paths that exist and whose content changes,
missing paths are skipped without being counted or raising, and unchanged
files are left untouched on disk. -/
theorem claim_c9 (fs : Fs) (ps : List String) (hnd : ps.Nodup) :
    (runLogargs fs ps).2 = (ps.filter (changesAt fs)).length ∧
    (∀ q : String, changesAt fs q = false →
      readFs (runLogargs fs ps).1 q = readFs fs q) ∧
    (∀ c : Content, (fixLogargsRun c).2 = true ↔ fixLogargsContent c ≠ c) := by
  refine ⟨(runLogargs_spec ps fs hnd).1, (runLogargs_spec ps fs hnd).2, ?_⟩
  intro c
  by_cases h : fixLogargsContent c ≠ c
  · simp only [fixLogargsRun, if_pos h]
    exact ⟨fun _ => h, fun _ => by trivial⟩
  · simp only [fixLogargsRun, if_neg h]
    constructor
    · intro hf
      exact absurd hf (by decide)
    · intro hc
      exact absurd hc h

/-- Witness for `claim_c9` on a concrete file system and path list. -/
theorem claim_c9_witness :
    (runLogargs [("a", str "x")] ["a", "b"]).2 =
      ((["a", "b"] : List String).filter (changesAt [("a", str "x")])).length :=
  (claim_c9 [("a", str "x")] ["a", "b"] (by decide)).1

end SlothPatch
